/-
Verification of the DRC-IO controller and node agent.

This file gives a shallow embedding, in Lean 4, of the core logic of the
DRC-IO repository:

* `docker/drcio/controller.py` — the io.weight daemon:
  `DRCIOController.calculate_weights`, `apply_io_weight`,
  `control_loop_iteration`, `_apply_new_weights`, `get_hp_latency`,
  `discover_pods`;
* `drc_io_agent/k8s_utils.py` — `list_pods_on_node`,
  `group_pods_by_priority`;
* `drc_io_agent/cgroup_utils.py` — `apply_io_limit`,
  `discover_block_device`;
* `drc_io_agent/main.py` — the agent `controller_loop` error bookkeeping.

Machine floats of the Python source are embedded as rationals (the
comparisons and the arithmetic involved are exact at every input the
theorems use); file contents are embedded as lists of characters; the
kernel and the cluster API are passed in as explicit environment data.
-/

import Mathlib

namespace DRCIO

/-! ## Control law: `DRCIOController.calculate_weights` and `_clamp_weight` -/

/-- `DRCIOController._clamp_weight`: `max(MIN_IO_WEIGHT, min(MAX_IO_WEIGHT, weight))`. -/
def clamp_weight (minW maxW w : ℤ) : ℤ :=
  max minW (min maxW w)

/-- `DRCIOController.calculate_weights`.  `latency` is `current_latency_ms`,
`threshold` is `self.sla_threshold_ms`; `minW`, `maxW` are the configured
`MIN_IO_WEIGHT`, `MAX_IO_WEIGHT`.  The band comparisons are the source's
strict `>` tests against `threshold * 1.3`, `* 1.1`, the threshold itself,
`* 0.8` and `* 0.6`, and both components are clamped. -/
def calculate_weights (minW maxW : ℤ) (latency threshold : ℚ) : ℤ × ℤ :=
  let weights : ℤ × ℤ :=
    if latency > threshold * (13/10) then (900, 100)
    else if latency > threshold * (11/10) then (800, 200)
    else if latency > threshold then (750, 250)
    else if latency > threshold * (8/10) then (700, 300)
    else if latency > threshold * (6/10) then (600, 400)
    else (500, 500)
  (clamp_weight minW maxW weights.1, clamp_weight minW maxW weights.2)

/-! ## Cgroup writes: `DRCIOController.apply_io_weight` -/

/-- Outcome of one attempted write to an `io.weight` file, as raised by the
kernel: success, `PermissionError`, or any other `OSError`. -/
inductive WriteOutcome
  | ok
  | permError
  | osError
deriving DecidableEq

/-- A resolved pod cgroup directory, as `apply_io_weight` sees it:
the directory path, whether `os.path.isfile(path + "/io.weight")` holds, and
the immediate entries returned by `glob.glob(path + "/*")`, each with whether
`entry + "/io.weight"` is a file. -/
structure CgroupDir where
  path : String
  hasDirectWeight : Bool
  entries : List (String × Bool)

/-- The observable result of `apply_io_weight`: the returned boolean, the
increments of the `permission_denied` and `io_weight_write` error counters,
and the `(target, bytes)` pairs actually written. -/
structure ApplyResult where
  success : Bool
  permDenied : Nat
  ioWriteErr : Nat
  writes : List (String × String)
deriving DecidableEq

/-- The bytes `handle.write(f"default {weight}\n")` puts in a target file. -/
def weight_line (weight : ℤ) : String :=
  "default " ++ toString weight ++ "\n"

/-- The `targets` list collected by `apply_io_weight`: the direct `io.weight`
when it is a file, then `entry + "/io.weight"` for each globbed entry that
has one. -/
def io_weight_targets (d : CgroupDir) : List String :=
  (if d.hasDirectWeight then [d.path ++ "/io.weight"] else []) ++
    d.entries.filterMap fun e =>
      if e.2 then some (e.1 ++ "/io.weight") else none

/-- One iteration of the `for target in targets` loop of `apply_io_weight`:
`kernel` is the filesystem's response to writing a given target. -/
def write_step (kernel : String → WriteOutcome) (weight : ℤ)
    (acc : ApplyResult) (target : String) : ApplyResult :=
  match kernel target with
  | .ok =>
      { acc with success := true,
                 writes := acc.writes ++ [(target, weight_line weight)] }
  | .permError => { acc with permDenied := acc.permDenied + 1 }
  | .osError => { acc with ioWriteErr := acc.ioWriteErr + 1 }

/-- `DRCIOController.apply_io_weight`.  `cg` is the result of
`get_cgroup_path` (`none` when no cgroup directory was located); on an empty
target list the function warns and returns `False`; otherwise it writes every
target in order, counting failures without aborting the loop. -/
def apply_io_weight (cg : Option CgroupDir) (kernel : String → WriteOutcome)
    (weight : ℤ) : ApplyResult :=
  match cg with
  | none => ⟨false, 0, 0, []⟩
  | some d =>
    let targets := io_weight_targets d
    if targets.isEmpty then ⟨false, 0, 0, []⟩
    else targets.foldl (write_step kernel weight) ⟨false, 0, 0, []⟩

/-! ## Control loop: `control_loop_iteration` and `_apply_new_weights` -/

/-- A discovered pod as the control loop uses it: its resolved cgroup
directory (if any) and the kernel's response to writes under it. -/
structure LoopPod where
  cg : Option CgroupDir
  kernel : String → WriteOutcome

/-- The mutable controller fields touched by the control loop. -/
structure CState where
  hp_weight : ℤ
  lp_weight : ℤ
  adjustment_count : Nat
  last_adjustment_time : Option ℚ

/-- The external inputs of one tick: the discovered HP and LP pods, the
latency returned by `get_hp_latency`, and the wall-clock time `time.time()`
of the tick. -/
structure TickInput where
  hp_pods : List LoopPod
  lp_pods : List LoopPod
  latency : Option ℚ
  now : ℚ

/-- Static controller configuration. -/
structure LoopConfig where
  minW : ℤ
  maxW : ℤ
  threshold : ℚ
  cooldown : ℚ

/-- `DRCIOController._apply_new_weights`: applies `nh` to every HP pod and
`nl` to every LP pod (tallying successes only for the log line), then
unconditionally stores the new weights, increments `adjustment_count`, and
sets `last_adjustment_time` to the current time.  Returns the new state and
the writes performed. -/
def apply_new_weights (s : CState) (inp : TickInput) (nh nl : ℤ) :
    CState × List (String × String) :=
  let writes :=
    (inp.hp_pods.flatMap fun p => (apply_io_weight p.cg p.kernel nh).writes) ++
      (inp.lp_pods.flatMap fun p => (apply_io_weight p.cg p.kernel nl).writes)
  ({ hp_weight := nh
     lp_weight := nl
     adjustment_count := s.adjustment_count + 1
     last_adjustment_time := some inp.now }, writes)

/-- `DRCIOController.control_loop_iteration`: skip when no HP pods, skip when
latency is unavailable, skip when the computed weights equal the stored ones,
skip when inside the cooldown window (`if self.last_adjustment_time:` is
Python truthiness, so a stored time of `0.0` skips the cooldown check),
otherwise apply. -/
def control_loop_iteration (cfg : LoopConfig) (s : CState) (inp : TickInput) :
    CState × List (String × String) :=
  if inp.hp_pods.isEmpty then (s, [])
  else
    match inp.latency with
    | none => (s, [])
    | some latency =>
      let nw := calculate_weights cfg.minW cfg.maxW latency cfg.threshold
      if nw.1 = s.hp_weight ∧ nw.2 = s.lp_weight then (s, [])
      else
        match s.last_adjustment_time with
        | none => apply_new_weights s inp nw.1 nw.2
        | some t =>
          if t = 0 then apply_new_weights s inp nw.1 nw.2
          else if inp.now - t < cfg.cooldown then (s, [])
          else apply_new_weights s inp nw.1 nw.2

/-! ## Pod discovery: `DRCIOController.discover_pods` (controller) and
`list_pods_on_node` / `group_pods_by_priority` (`drc_io_agent/k8s_utils.py`) -/

/-- One `container_status` of a pod, as the cluster API reports it
(`container_id` is runtime-prefixed, e.g. `containerd://<id>`; `none` or the
empty string model a missing id). -/
structure ContainerStatus where
  name : String
  containerID : Option String
  ready : Bool
deriving DecidableEq

/-- A pod as returned by the cluster API list call. -/
structure K8sPod where
  name : String
  ns : String
  uid : String
  phase : String
  labels : List (String × String)
  nodeName : String
  containerStatuses : List ContainerStatus
deriving DecidableEq

/-- The `pod_info` dict built by `discover_pods`. -/
structure PodInfo where
  name : String
  uid : String
  node : String
  ns : String
  labels : List (String × String)
deriving DecidableEq

def pod_info (p : K8sPod) : PodInfo :=
  ⟨p.name, p.uid, p.nodeName, p.ns, p.labels⟩

/-- One iteration of the `for pod in pods.items` loop of `discover_pods`:
skip non-Running pods, then append to the HP or LP list according to the
`group-id` label. -/
def discover_pods_step (acc : List PodInfo × List PodInfo) (pod : K8sPod) :
    List PodInfo × List PodInfo :=
  if pod.phase ≠ "Running" then acc
  else
    let group_id := pod.labels.lookup "group-id"
    if group_id = some "hp" then (acc.1 ++ [pod_info pod], acc.2)
    else if group_id = some "lp" then (acc.1, acc.2 ++ [pod_info pod])
    else acc

/-- `DRCIOController.discover_pods`, applied to the pods the cluster API
returned for the managed namespace. -/
def discover_pods (pods : List K8sPod) : List PodInfo × List PodInfo :=
  pods.foldl discover_pods_step ([], [])

/-- A container entry of the agent's pod dict. -/
structure AgentContainer where
  name : String
  id : String
  ready : Bool
deriving DecidableEq

/-- The agent's pod dict built by `list_pods_on_node`. -/
structure AgentPod where
  name : String
  ns : String
  uid : String
  labels : List (String × String)
  containers : List AgentContainer
deriving DecidableEq

/-- The container list of `list_pods_on_node`: statuses with a truthy
`container_id`, the id stripped of its runtime scheme prefix
(`container_id.split("://")[-1]`). -/
def agent_containers (statuses : List ContainerStatus) : List AgentContainer :=
  statuses.filterMap fun cs =>
    match cs.containerID with
    | none => none
    | some cid =>
      if cid = "" then none
      else some ⟨cs.name, (cid.splitOn "://").getLastD "", cs.ready⟩

def agent_pod (p : K8sPod) : AgentPod :=
  ⟨p.name, p.ns, p.uid, p.labels, agent_containers p.containerStatuses⟩

/-- `list_pods_on_node`, applied to the pods the cluster API returned for
the node's field selector: pods whose phase is neither Running nor Pending
are skipped; all others are kept. -/
def list_pods_on_node (pods : List K8sPod) : List AgentPod :=
  (pods.filter fun p => p.phase = "Running" ∨ p.phase = "Pending").map agent_pod

/-- One iteration of the loop of `group_pods_by_priority`: the `group-id`
label (default `""`) routes the pod to the HP or LP list. -/
def group_pods_step (acc : List AgentPod × List AgentPod) (pod : AgentPod) :
    List AgentPod × List AgentPod :=
  let group_id := (pod.labels.lookup "group-id").getD ""
  if group_id = "hp" then (acc.1 ++ [pod], acc.2)
  else if group_id = "lp" then (acc.1, acc.2 ++ [pod])
  else acc

/-- `group_pods_by_priority`. -/
def group_pods_by_priority (pods : List AgentPod) :
    List AgentPod × List AgentPod :=
  pods.foldl group_pods_step ([], [])

/-! ## Latency source: `DRCIOController.get_hp_latency` -/

/-- The decoded Prometheus instant-query response body: the `status` field
and, per entry of `data.result`, the scalar parsed from `value[1]` (in
seconds); `none` models an entry whose value fails indexing or `float()`. -/
structure PromBody where
  status : String
  result : List (Option ℚ)
deriving DecidableEq

/-- What the HTTP layer produced: `transportError` covers both a failed
request and `raise_for_status` on an HTTP error status (both raise
`requests.RequestException`); `ok` carries the decoded body. -/
inductive PromFetch
  | transportError
  | ok (body : PromBody)
deriving DecidableEq

/-- The observable result of `get_hp_latency`: the returned value (ms) and
the increments of the `prometheus_query` and `prometheus_parse` error
counters. -/
structure LatencyResult where
  latency : Option ℚ
  queryErrInc : Nat
  parseErrInc : Nat
deriving DecidableEq

/-- `DRCIOController.get_hp_latency`. -/
def get_hp_latency : PromFetch → LatencyResult
  | .transportError => ⟨none, 1, 0⟩
  | .ok body =>
    if body.status ≠ "success" then ⟨none, 0, 0⟩
    else
      match body.result with
      | [] => ⟨none, 0, 0⟩
      | item :: _ =>
        match item with
        | none => ⟨none, 0, 1⟩
        | some seconds => ⟨some (seconds * 1000), 0, 0⟩

/-! ## Node agent error bookkeeping: `controller_loop` in
`drc_io_agent/main.py` -/

/-- The `controller_state` fields the loop body mutates. -/
structure AgentState where
  error_count : Nat
  last_error : Option String
  last_update : Option ℚ
deriving DecidableEq

/-- The outcome of one `while running` iteration body: it either completed
(`success`, carrying `time.time()` at completion) or raised
(`failure`, carrying `str(e)`). -/
inductive IterOutcome
  | success (t : ℚ)
  | failure (msg : String)
deriving DecidableEq

def isSuccess : IterOutcome → Bool
  | .success _ => true
  | .failure _ => false

/-- One iteration of the agent `controller_loop` body: on completion store
`last_update` and reset `error_count` and `last_error`; on an exception
increment `error_count` and store the message. -/
def controller_loop_iteration (s : AgentState) (o : IterOutcome) :
    AgentState :=
  match o with
  | .success t => { s with last_update := some t, error_count := 0,
                           last_error := none }
  | .failure m => { s with error_count := s.error_count + 1,
                           last_error := some m }

/-- The agent loop over a sequence of iteration outcomes. -/
def controller_loop_run (s : AgentState) (os : List IterOutcome) :
    AgentState :=
  os.foldl controller_loop_iteration s

/-- The `error_count` field reported by the `/status` and `/metrics`
endpoints (both read `controller_state["error_count"]`). -/
def status_error_count (s : AgentState) : Nat :=
  s.error_count

/-- The number of failed iterations since the last successful one. -/
def trailing_failures (os : List IterOutcome) : Nat :=
  (os.reverse.takeWhile fun o => ! isSuccess o).length

/-! ## Bandwidth caps: `apply_io_limit` (`drc_io_agent/cgroup_utils.py`) -/

/-- File contents are embedded as lists of characters. -/
abbrev Bytes := List Char

def isWs (c : Char) : Bool := c.isWhitespace

/-- Python `str.split("\n")`. -/
def splitNl : Bytes → List Bytes
  | [] => [[]]
  | c :: cs =>
    if c = '\n' then [] :: splitNl cs
    else
      match splitNl cs with
      | [] => [[c]]
      | l :: ls => (c :: l) :: ls

/-- Drop trailing whitespace. -/
def dropEndWs (s : Bytes) : Bytes :=
  (s.reverse.dropWhile isWs).reverse

/-- Python `str.strip()`. -/
def stripB (s : Bytes) : Bytes :=
  dropEndWs (s.dropWhile isWs)

/-- The list `[line.strip() for line in f if line.strip()]` read from an
`io.max` file. -/
def read_lines (contents : Bytes) : List Bytes :=
  ((splitNl contents).map stripB).filter fun l => ! l.isEmpty

/-- Python `"\n".join(...)`. -/
def joinNl : List Bytes → Bytes
  | [] => []
  | [l] => l
  | l :: l2 :: ls => l ++ '\n' :: joinNl (l2 :: ls)

/-- The line `f"{device} rbps={rbps} wbps={wbps}\n"`. -/
def io_limit_line (device rbps wbps : Bytes) : Bytes :=
  device ++ " rbps=".toList ++ rbps ++ " wbps=".toList ++ wbps ++ ['\n']

/-- `line.startswith(f"{device} ")` is `startsWithB (device ++ [' ']) line`. -/
def startsWithB (p s : Bytes) : Bool :=
  p.isPrefixOf s

/-- The `io.max` contents produced by `apply_io_limit` from the previous
contents (`none` models an absent file): read the stripped non-empty lines,
drop those whose device prefix matches, append the stripped new limit line,
and write them back joined by newlines plus a final newline. -/
def apply_io_limit_contents (old : Option Bytes) (device rbps wbps : Bytes) :
    Bytes :=
  let existing := match old with | none => [] | some c => read_lines c
  let kept := existing.filter fun line => ! startsWithB (device ++ [' ']) line
  joinNl (kept ++ [stripB (io_limit_line device rbps wbps)]) ++ ['\n']

/-! ## Block-device resolution: `discover_block_device`
(`drc_io_agent/cgroup_utils.py`) -/

/-- `":" in device and device.replace(":", "").isdigit()`. -/
def is_majmin (device : String) : Bool :=
  device.toList.contains ':' &&
    (let digits := device.toList.filter fun c => c != ':'
     ! digits.isEmpty && digits.all fun c => c.isDigit)

/-- The filesystem facts the resolver consults: `os.path.exists`, whether a
path is a block-device node, its `major(rdev), minor(rdev)` pair, and the
whitespace-split field lists of the `/proc/partitions` lines. -/
structure SysEnv where
  devExists : String → Bool
  devIsBlock : String → Bool
  devRdev : String → Nat × Nat
  partitions : List (List String)

/-- `os.path.basename`. -/
def basename (p : String) : String :=
  (p.splitOn "/").getLastD ""

/-- The candidate paths tried by the `for dev_path in device_paths` loop
(`device.startswith("/")` is checked on the character list). -/
def device_paths (device : String) : List String :=
  [device] ++
    (if ['/'].isPrefixOf device.toList then []
     else ["/dev/" ++ device, "/dev/disk/by-id/" ++ device])

/-- The body of the `for dev_path in device_paths` loop.  The source guards
`os.path.exists(dev_path)` and then evaluates `os.path.S_ISBLK(stat.st_mode)`;
the `os.path` module has no attribute `S_ISBLK`, so that lookup raises
`AttributeError`, which the surrounding
`except (OSError, AttributeError, ValueError): continue` swallows.  No
iteration of this loop ever returns a value. -/
def try_stat_device (env : SysEnv) (devPath : String) : Option String :=
  if env.devExists devPath then none
  else none

/-- Modelled from the spec: "treat the field as a device-node path, stat it,
and on a block device return `major(rdev):minor(rdev)`" — what the stat loop
was intended to compute (and what its own log line claims); used to state
the behaviour the code misses. -/
def try_stat_device_spec (env : SysEnv) (devPath : String) : Option String :=
  if env.devExists devPath then
    if env.devIsBlock devPath then
      some (toString (env.devRdev devPath).1 ++ ":" ++
        toString (env.devRdev devPath).2)
    else none
  else none

/-- The `/proc/partitions` fallback scan: the first line with at least 4
fields whose name field (index 3) equals the device basename yields
`major:minor` from fields 0 and 1; an `int()` failure aborts the whole scan
(the `except (IOError, ValueError): pass` wraps the loop). -/
def scan_partitions (partitions : List (List String)) (devBase : String) :
    Option String :=
  match partitions with
  | [] => none
  | parts :: rest =>
    if parts.length ≥ 4 ∧ parts.getD 3 "" = devBase then
      match (parts.getD 0 "").toNat?, (parts.getD 1 "").toNat? with
      | some major, some minor =>
          some (toString major ++ ":" ++ toString minor)
      | _, _ => none
    else scan_partitions rest devBase

/-- `discover_block_device`: walk the mountinfo entries (each the
whitespace-split field list of one line); lines with fewer than 10 fields
are skipped; on an entry whose mount point (field 4) equals the requested
path, return the device field (field 2) unchanged if it is already
`major:minor`, otherwise try the stat loop over the candidate device paths
and then the partitions fallback; when both fail, keep scanning the
remaining lines. -/
def discover_block_device (env : SysEnv) (mountinfo : List (List String))
    (mount_path : String) : Option String :=
  match mountinfo with
  | [] => none
  | parts :: rest =>
    if parts.length < 10 then discover_block_device env rest mount_path
    else if parts.getD 4 "" = mount_path then
      let device := parts.getD 2 ""
      if is_majmin device then some device
      else
        match (device_paths device).findSome? (try_stat_device env) with
        | some d => some d
        | none =>
          match scan_partitions env.partitions (basename device) with
          | some d => some d
          | none => discover_block_device env rest mount_path
    else discover_block_device env rest mount_path

end DRCIO

namespace DRCIO

/-! ## Theorems -/

theorem clamp_weight_mono (minW maxW : ℤ) {a b : ℤ} (h : a ≤ b) :
    clamp_weight minW maxW a ≤ clamp_weight minW maxW b := by
  unfold clamp_weight
  omega

theorem clamp_weight_mem (minW maxW w : ℤ) (h : minW ≤ maxW) :
    minW ≤ clamp_weight minW maxW w ∧ clamp_weight minW maxW w ≤ maxW := by
  unfold clamp_weight
  omega

/-- C1: for `latency ≥ 0`, `threshold > 0` and `MIN_IO_WEIGHT ≤ MAX_IO_WEIGHT`,
`calculate_weights` returns exactly the clamped pair of the six-band table
selected with strict `>` comparisons, the result lies in
`[MIN_IO_WEIGHT, MAX_IO_WEIGHT]²`, the HP component is at least the LP
component, and at the exact boundary `latency = threshold` the lower band
`(700, 300)` is chosen. -/
theorem calculate_weights_spec (minW maxW : ℤ) (L T : ℚ)
    (hL : 0 ≤ L) (hT : 0 < T) (hMM : minW ≤ maxW) :
    (calculate_weights minW maxW T T =
      (clamp_weight minW maxW 700, clamp_weight minW maxW 300)) ∧
    (minW ≤ (calculate_weights minW maxW L T).1 ∧
      (calculate_weights minW maxW L T).1 ≤ maxW ∧
      minW ≤ (calculate_weights minW maxW L T).2 ∧
      (calculate_weights minW maxW L T).2 ≤ maxW) ∧
    ((calculate_weights minW maxW L T).2 ≤ (calculate_weights minW maxW L T).1) ∧
    (T * (13/10) < L → calculate_weights minW maxW L T =
      (clamp_weight minW maxW 900, clamp_weight minW maxW 100)) ∧
    (T * (11/10) < L → L ≤ T * (13/10) → calculate_weights minW maxW L T =
      (clamp_weight minW maxW 800, clamp_weight minW maxW 200)) ∧
    (T < L → L ≤ T * (11/10) → calculate_weights minW maxW L T =
      (clamp_weight minW maxW 750, clamp_weight minW maxW 250)) ∧
    (T * (8/10) < L → L ≤ T → calculate_weights minW maxW L T =
      (clamp_weight minW maxW 700, clamp_weight minW maxW 300)) ∧
    (T * (6/10) < L → L ≤ T * (8/10) → calculate_weights minW maxW L T =
      (clamp_weight minW maxW 600, clamp_weight minW maxW 400)) ∧
    (L ≤ T * (6/10) → calculate_weights minW maxW L T =
      (clamp_weight minW maxW 500, clamp_weight minW maxW 500)) := by
  constructor
  · unfold calculate_weights
    have h1 : ¬ (T > T * (13/10)) := by nlinarith
    have h2 : ¬ (T > T * (11/10)) := by nlinarith
    have h3 : ¬ (T > T) := lt_irrefl T
    have h4 : T > T * (8/10) := by nlinarith
    rw [if_neg h1, if_neg h2, if_neg h3, if_pos h4]
  · unfold calculate_weights
    dsimp only
    split_ifs with h1 h2 h3 h4 h5 <;>
      refine ⟨⟨?_, ?_, ?_, ?_⟩, ?_, ?_, ?_, ?_, ?_, ?_, ?_⟩ <;>
      first
        | (unfold clamp_weight; omega)
        | (intros; rfl)
        | (intros; exfalso; linarith)

/-- Witness for C1 at `latency = 500`, `threshold = 500`,
`MIN_IO_WEIGHT = 100`, `MAX_IO_WEIGHT = 1000`. -/
theorem calculate_weights_spec_witness :
    calculate_weights 100 1000 500 500 =
      (clamp_weight 100 1000 700, clamp_weight 100 1000 300) :=
  (calculate_weights_spec 100 1000 500 500 (by norm_num) (by norm_num)
    (by norm_num)).1

/-- Characterization of the write loop of `apply_io_weight`. -/
theorem write_step_foldl (kernel : String → WriteOutcome) (w : ℤ)
    (ts : List String) (acc : ApplyResult) :
    ts.foldl (write_step kernel w) acc =
      { success := acc.success || ts.any fun t => kernel t == .ok
        permDenied :=
          acc.permDenied + (ts.countP fun t => kernel t == .permError)
        ioWriteErr :=
          acc.ioWriteErr + (ts.countP fun t => kernel t == .osError)
        writes := acc.writes ++
          ((ts.filter fun t => kernel t == .ok).map
            fun t => (t, weight_line w)) } := by
  induction ts generalizing acc with
  | nil => simp
  | cons t ts ih =>
    rw [List.foldl_cons, ih]
    unfold write_step
    cases h : kernel t
    · simp [h, List.countP_cons, List.filter_cons, ApplyResult.mk.injEq]
    · simp [h, List.countP_cons, List.filter_cons, ApplyResult.mk.injEq]
      exact ⟨rfl, by omega⟩
    · simp [h, List.countP_cons, List.filter_cons, ApplyResult.mk.injEq]
      exact ⟨rfl, by omega⟩

/-- C6: `apply_io_weight` writes the literal bytes `default <weight>\n` to
exactly the targets the kernel accepts (the pod directory's `io.weight` and
each globbed entry's), succeeds iff at least one target write succeeded (so
it fails when the target list is empty), counts each `PermissionError` under
`permission_denied` and each other `OSError` under `io_weight_write`, and an
individual failure does not abort the sibling writes. -/
theorem apply_io_weight_spec (d : CgroupDir) (kernel : String → WriteOutcome)
    (w : ℤ) :
    (apply_io_weight (some d) kernel w =
      { success := (io_weight_targets d).any fun t => kernel t == .ok
        permDenied :=
          (io_weight_targets d).countP fun t => kernel t == .permError
        ioWriteErr :=
          (io_weight_targets d).countP fun t => kernel t == .osError
        writes := ((io_weight_targets d).filter fun t => kernel t == .ok).map
          fun t => (t, weight_line w) }) ∧
    ((apply_io_weight (some d) kernel w).success = true ↔
      ∃ t ∈ io_weight_targets d, kernel t = .ok) ∧
    apply_io_weight none kernel w = ⟨false, 0, 0, []⟩ := by
  have h1 : apply_io_weight (some d) kernel w =
      { success := (io_weight_targets d).any fun t => kernel t == .ok
        permDenied :=
          (io_weight_targets d).countP fun t => kernel t == .permError
        ioWriteErr :=
          (io_weight_targets d).countP fun t => kernel t == .osError
        writes := ((io_weight_targets d).filter fun t => kernel t == .ok).map
          fun t => (t, weight_line w) } := by
    unfold apply_io_weight
    dsimp only
    split_ifs with h
    · rw [List.isEmpty_iff] at h
      rw [h]
      rfl
    · rw [write_step_foldl]
      simp
  refine ⟨h1, ?_, rfl⟩
  rw [h1]
  simp [List.any_eq_true]

/-- C7: a tick with an empty HP pod set, or with no latency sample, performs
no cgroup writes and leaves `hp_weight`, `lp_weight`, `adjustment_count` and
`last_adjustment_time` unchanged. -/
theorem skip_tick_frame (cfg : LoopConfig) (s : CState) (inp : TickInput)
    (h : inp.hp_pods.isEmpty = true ∨ inp.latency = none) :
    control_loop_iteration cfg s inp = (s, []) := by
  unfold control_loop_iteration
  rcases h with h | h
  · simp [h]
  · cases he : inp.hp_pods.isEmpty <;> simp [he, h]

/-- Witness for C7: a tick with no HP pods changes nothing. -/
theorem skip_tick_frame_witness :
    control_loop_iteration ⟨100, 1000, 500, 10⟩ ⟨500, 500, 0, none⟩
      ⟨[], [], some 700, 100⟩ = (⟨500, 500, 0, none⟩, []) :=
  skip_tick_frame ⟨100, 1000, 500, 10⟩ ⟨500, 500, 0, none⟩
    ⟨[], [], some 700, 100⟩ (Or.inl rfl)

/-- C3: whenever a tick performs an adjustment while a previous adjustment
time `t1 > 0` is stored, at least `ADJUSTMENT_COOLDOWN` seconds have elapsed
since `t1`, and the tick stores its own time; and when no adjustment time is
stored yet (startup), the cooldown gate never blocks: the tick adjusts as
soon as the other gates pass.  Since every adjustment stores its own
wall-clock time, two successive adjustments at `t1 < t2` satisfy
`t2 - t1 ≥ ADJUSTMENT_COOLDOWN`. -/
theorem adjustment_cooldown_spec (cfg : LoopConfig) (s : CState)
    (inp : TickInput) :
    (∀ t1 : ℚ, s.last_adjustment_time = some t1 → 0 < t1 →
      (control_loop_iteration cfg s inp).1.adjustment_count ≠
        s.adjustment_count →
      cfg.cooldown ≤ inp.now - t1 ∧
        (control_loop_iteration cfg s inp).1.last_adjustment_time =
          some inp.now) ∧
    (s.last_adjustment_time = none → inp.hp_pods.isEmpty = false →
      ∀ l : ℚ, inp.latency = some l →
      ¬((calculate_weights cfg.minW cfg.maxW l cfg.threshold).1 =
          s.hp_weight ∧
        (calculate_weights cfg.minW cfg.maxW l cfg.threshold).2 =
          s.lp_weight) →
      (control_loop_iteration cfg s inp).1.adjustment_count =
          s.adjustment_count + 1 ∧
        (control_loop_iteration cfg s inp).1.last_adjustment_time =
          some inp.now) := by
  constructor
  · intro t1 hlast ht1 hcount
    unfold control_loop_iteration at hcount ⊢
    rw [hlast] at hcount ⊢
    by_cases he : inp.hp_pods.isEmpty = true
    · rw [if_pos he] at hcount
      exact absurd rfl hcount
    · rw [if_neg he] at hcount ⊢
      cases hl : inp.latency with
      | none =>
        rw [hl] at hcount
        exact absurd rfl hcount
      | some l =>
        rw [hl] at hcount
        dsimp only at hcount ⊢
        by_cases heq :
            (calculate_weights cfg.minW cfg.maxW l cfg.threshold).1 =
              s.hp_weight ∧
            (calculate_weights cfg.minW cfg.maxW l cfg.threshold).2 =
              s.lp_weight
        · rw [if_pos heq] at hcount
          exact absurd rfl hcount
        · rw [if_neg heq] at hcount ⊢
          have ht0 : ¬ t1 = 0 := by linarith
          rw [if_neg ht0] at hcount ⊢
          by_cases hcd : inp.now - t1 < cfg.cooldown
          · rw [if_pos hcd] at hcount
            exact absurd rfl hcount
          · rw [if_neg hcd] at hcount ⊢
            exact ⟨by linarith, rfl⟩
  · intro hnone hne l hl hneq
    unfold control_loop_iteration
    rw [hnone, hl]
    have hne2 : ¬ inp.hp_pods.isEmpty = true := by simp [hne]
    rw [if_neg hne2]
    dsimp only
    rw [if_neg hneq]
    exact ⟨rfl, rfl⟩

/-- Witness for C3: an adjustment 15 s after a stored adjustment at `t = 5`
with a 10 s cooldown, and a first adjustment from startup state. -/
theorem adjustment_cooldown_spec_witness :
    ((10 : ℚ) ≤ (20 : ℚ) - 5 ∧
      (control_loop_iteration ⟨100, 1000, 500, 10⟩ ⟨500, 500, 3, some 5⟩
        ⟨[⟨none, fun _ => .ok⟩], [], some 700, 20⟩).1.last_adjustment_time =
        some 20) ∧
    ((control_loop_iteration ⟨100, 1000, 500, 10⟩ ⟨500, 500, 0, none⟩
        ⟨[⟨none, fun _ => .ok⟩], [], some 700, 20⟩).1.adjustment_count =
        0 + 1 ∧
      (control_loop_iteration ⟨100, 1000, 500, 10⟩ ⟨500, 500, 0, none⟩
        ⟨[⟨none, fun _ => .ok⟩], [], some 700, 20⟩).1.last_adjustment_time =
        some 20) := by
  constructor
  · exact (adjustment_cooldown_spec ⟨100, 1000, 500, 10⟩ ⟨500, 500, 3, some 5⟩
      ⟨[⟨none, fun _ => .ok⟩], [], some 700, 20⟩).1 5 rfl (by norm_num)
      (by norm_num [control_loop_iteration, apply_new_weights,
        calculate_weights, clamp_weight])
  · exact (adjustment_cooldown_spec ⟨100, 1000, 500, 10⟩ ⟨500, 500, 0, none⟩
      ⟨[⟨none, fun _ => .ok⟩], [], some 700, 20⟩).2 rfl rfl 700 rfl
      (by norm_num [calculate_weights, clamp_weight])

/-- C2 counterexample: with a single HP pod whose only `io.weight` write is
rejected with `PermissionError` (zero successful writes across both
classes), the tick still advances the stored setpoint to `(900, 100)`,
still increments the adjustments counter, and still stores the tick time. -/
theorem apply_failed_still_advances :
    (apply_io_weight (some ⟨"/pod", true, []⟩) (fun _ => .permError)
        900).success = false ∧
    (control_loop_iteration ⟨100, 1000, 500, 10⟩ ⟨500, 500, 0, none⟩
      ⟨[⟨some ⟨"/pod", true, []⟩, fun _ => .permError⟩], [],
        some 700, 100⟩).2 = [] ∧
    (control_loop_iteration ⟨100, 1000, 500, 10⟩ ⟨500, 500, 0, none⟩
      ⟨[⟨some ⟨"/pod", true, []⟩, fun _ => .permError⟩], [],
        some 700, 100⟩).1.adjustment_count = 1 ∧
    (control_loop_iteration ⟨100, 1000, 500, 10⟩ ⟨500, 500, 0, none⟩
      ⟨[⟨some ⟨"/pod", true, []⟩, fun _ => .permError⟩], [],
        some 700, 100⟩).1.hp_weight = 900 ∧
    (control_loop_iteration ⟨100, 1000, 500, 10⟩ ⟨500, 500, 0, none⟩
      ⟨[⟨some ⟨"/pod", true, []⟩, fun _ => .permError⟩], [],
        some 700, 100⟩).1.last_adjustment_time = some 100 := by
  norm_num [control_loop_iteration, apply_new_weights, apply_io_weight,
    io_weight_targets, write_step, calculate_weights, clamp_weight]

/-- C2 amended: `_apply_new_weights` stores the new setpoint, increments the
adjustments counter and stores the tick time unconditionally — also when
zero cgroup writes succeed — and a subsequent tick whose latency maps to the
same setpoint is skipped by the equality gate (the failed inputs are not
retried). -/
theorem apply_new_weights_advances_unconditionally (cfg : LoopConfig)
    (s : CState) (inp : TickInput) (nh nl : ℤ) :
    ((apply_new_weights s inp nh nl).1.hp_weight = nh ∧
      (apply_new_weights s inp nh nl).1.lp_weight = nl ∧
      (apply_new_weights s inp nh nl).1.adjustment_count =
        s.adjustment_count + 1 ∧
      (apply_new_weights s inp nh nl).1.last_adjustment_time =
        some inp.now) ∧
    (∀ inp2 : TickInput, ∀ l2 : ℚ, inp2.latency = some l2 →
      calculate_weights cfg.minW cfg.maxW l2 cfg.threshold = (nh, nl) →
      control_loop_iteration cfg (apply_new_weights s inp nh nl).1 inp2 =
        ((apply_new_weights s inp nh nl).1, [])) := by
  refine ⟨⟨rfl, rfl, rfl, rfl⟩, ?_⟩
  intro inp2 l2 hl2 hcw
  unfold control_loop_iteration
  cases he : inp2.hp_pods.isEmpty
  · rw [if_neg Bool.false_ne_true, hl2]
    dsimp only
    rw [hcw, if_pos ⟨rfl, rfl⟩]
  · rw [if_pos rfl]

/-- The `discover_pods` loop as two filters. -/
theorem discover_pods_foldl (pods : List K8sPod)
    (acc : List PodInfo × List PodInfo) :
    pods.foldl discover_pods_step acc =
      (acc.1 ++ ((pods.filter fun p => p.phase = "Running" ∧
          p.labels.lookup "group-id" = some "hp").map pod_info),
       acc.2 ++ ((pods.filter fun p => p.phase = "Running" ∧
          p.labels.lookup "group-id" = some "lp").map pod_info)) := by
  induction pods generalizing acc with
  | nil => simp
  | cons p ps ih =>
    rw [List.foldl_cons, ih]
    unfold discover_pods_step
    by_cases h1 : p.phase = "Running"
    · rw [if_neg (by simp [h1])]
      dsimp only
      by_cases h2 : p.labels.lookup "group-id" = some "hp"
      · rw [if_pos h2]
        simp [List.filter_cons, h1, h2]
      · rw [if_neg h2]
        by_cases h3 : p.labels.lookup "group-id" = some "lp"
        · rw [if_pos h3]
          simp [List.filter_cons, h1, h2, h3]
        · rw [if_neg h3]
          simp [List.filter_cons, h1, h2, h3]
    · rw [if_pos h1]
      simp [List.filter_cons, h1]

/-- The `group_pods_by_priority` loop as two filters. -/
theorem group_pods_foldl (pods : List AgentPod)
    (acc : List AgentPod × List AgentPod) :
    pods.foldl group_pods_step acc =
      (acc.1 ++ (pods.filter fun p =>
          (p.labels.lookup "group-id").getD "" = "hp"),
       acc.2 ++ (pods.filter fun p =>
          (p.labels.lookup "group-id").getD "" = "lp")) := by
  induction pods generalizing acc with
  | nil => simp
  | cons p ps ih =>
    rw [List.foldl_cons, ih]
    unfold group_pods_step
    dsimp only
    by_cases h2 : (p.labels.lookup "group-id").getD "" = "hp"
    · rw [if_pos h2]
      simp [List.filter_cons, h2]
    · rw [if_neg h2]
      by_cases h3 : (p.labels.lookup "group-id").getD "" = "lp"
      · rw [if_pos h3]
        simp [List.filter_cons, h2, h3]
      · rw [if_neg h3]
        simp [List.filter_cons, h2, h3]

/-- C4 counterexample: a Pending pod labeled `group-id=lp` does appear in
the LP set produced by the agent's `list_pods_on_node` followed by
`group_pods_by_priority`. -/
theorem pending_pod_in_lp_set :
    (⟨"p1", "ns", "u1", "Pending", [("group-id", "lp")], "n1", []⟩ :
        K8sPod).phase ≠ "Running" ∧
    (group_pods_by_priority (list_pods_on_node
        [⟨"p1", "ns", "u1", "Pending", [("group-id", "lp")], "n1", []⟩])).2 =
      [agent_pod ⟨"p1", "ns", "u1", "Pending", [("group-id", "lp")], "n1",
        []⟩] :=
  ⟨by decide, rfl⟩

/-- C4 amended: the daemon's `discover_pods` returns only Running pods in
its HP and LP sets, but the agent's `list_pods_on_node` keeps every pod
whose phase is Running or Pending, so a Pending pod can appear in the
agent's HP/LP sets; only pods in phases outside {Running, Pending} are
excluded on both paths. -/
theorem pod_discovery_phase_spec (pods : List K8sPod) :
    (∀ q ∈ (discover_pods pods).1,
      ∃ p ∈ pods, p.phase = "Running" ∧ q = pod_info p) ∧
    (∀ q ∈ (discover_pods pods).2,
      ∃ p ∈ pods, p.phase = "Running" ∧ q = pod_info p) ∧
    (∀ q ∈ (group_pods_by_priority (list_pods_on_node pods)).1,
      ∃ p ∈ pods, (p.phase = "Running" ∨ p.phase = "Pending") ∧
        q = agent_pod p) ∧
    (∀ q ∈ (group_pods_by_priority (list_pods_on_node pods)).2,
      ∃ p ∈ pods, (p.phase = "Running" ∨ p.phase = "Pending") ∧
        q = agent_pod p) := by
  refine ⟨?_, ?_, ?_, ?_⟩ <;> intro q hq
  · rw [discover_pods, discover_pods_foldl] at hq
    simp only [List.nil_append, List.mem_map, List.mem_filter,
      decide_eq_true_eq] at hq
    obtain ⟨p, ⟨hpm, hcond⟩, hq⟩ := hq
    exact ⟨p, hpm, hcond.1, hq.symm⟩
  · rw [discover_pods, discover_pods_foldl] at hq
    simp only [List.nil_append, List.mem_map, List.mem_filter,
      decide_eq_true_eq] at hq
    obtain ⟨p, ⟨hpm, hcond⟩, hq⟩ := hq
    exact ⟨p, hpm, hcond.1, hq.symm⟩
  · rw [group_pods_by_priority, group_pods_foldl] at hq
    simp only [List.nil_append, List.mem_filter, list_pods_on_node,
      List.mem_map, decide_eq_true_eq] at hq
    obtain ⟨⟨p, ⟨hpm, hph⟩, hq1⟩, _⟩ := hq
    exact ⟨p, hpm, hph, hq1.symm⟩
  · rw [group_pods_by_priority, group_pods_foldl] at hq
    simp only [List.nil_append, List.mem_filter, list_pods_on_node,
      List.mem_map, decide_eq_true_eq] at hq
    obtain ⟨⟨p, ⟨hpm, hph⟩, hq1⟩, _⟩ := hq
    exact ⟨p, hpm, hph, hq1.symm⟩

/-- Witness for C4's amended theorem at a single Pending LP pod. -/
theorem pod_discovery_phase_spec_witness :
    ∃ p ∈ [(⟨"p1", "ns", "u1", "Pending", [("group-id", "lp")], "n1", []⟩ :
        K8sPod)],
      (p.phase = "Running" ∨ p.phase = "Pending") ∧
        agent_pod ⟨"p1", "ns", "u1", "Pending", [("group-id", "lp")], "n1",
          []⟩ = agent_pod p :=
  (pod_discovery_phase_spec
      [⟨"p1", "ns", "u1", "Pending", [("group-id", "lp")], "n1", []⟩]).2.2.2
    (agent_pod ⟨"p1", "ns", "u1", "Pending", [("group-id", "lp")], "n1", []⟩)
    (by decide)

/-- C5 counterexample: a decoded response whose `status` field is not
`"success"` yields `None` but increments no error counter at all, not
exactly one. -/
theorem prom_error_status_no_counter :
    get_hp_latency (.ok ⟨"error", []⟩) = ⟨none, 0, 0⟩ ∧
    (get_hp_latency (.ok ⟨"error", []⟩)).queryErrInc +
      (get_hp_latency (.ok ⟨"error", []⟩)).parseErrInc = 0 :=
  ⟨rfl, rfl⟩

/-- C5 amended: `get_hp_latency` returns `None` on every failure shape, but
increments the `prometheus_query` counter only on a transport/HTTP failure
and the `prometheus_parse` counter only on an unparseable first scalar; a
non-success `status` field and an empty result list return `None` without
touching any counter.  On success the scalar is converted from seconds to
milliseconds. -/
theorem get_hp_latency_spec :
    (get_hp_latency .transportError = ⟨none, 1, 0⟩) ∧
    (∀ body : PromBody, body.status ≠ "success" →
      get_hp_latency (.ok body) = ⟨none, 0, 0⟩) ∧
    (∀ body : PromBody, body.status = "success" → body.result = [] →
      get_hp_latency (.ok body) = ⟨none, 0, 0⟩) ∧
    (∀ (body : PromBody) (rest : List (Option ℚ)),
      body.status = "success" → body.result = none :: rest →
      get_hp_latency (.ok body) = ⟨none, 0, 1⟩) ∧
    (∀ (body : PromBody) (v : ℚ) (rest : List (Option ℚ)),
      body.status = "success" → body.result = some v :: rest →
      get_hp_latency (.ok body) = ⟨some (v * 1000), 0, 0⟩) ∧
    (∀ f : PromFetch, (get_hp_latency f).latency = none ↔
      ¬ ∃ (body : PromBody) (v : ℚ) (rest : List (Option ℚ)),
        f = .ok body ∧ body.status = "success" ∧
          body.result = some v :: rest) := by
  refine ⟨rfl, ?_, ?_, ?_, ?_, ?_⟩
  · intro body h
    unfold get_hp_latency
    dsimp only
    rw [if_pos h]
  · intro body hs hres
    unfold get_hp_latency
    dsimp only
    rw [if_neg (by simp [hs]), hres]
  · intro body rest hs hres
    unfold get_hp_latency
    dsimp only
    rw [if_neg (by simp [hs]), hres]
  · intro body v rest hs hres
    unfold get_hp_latency
    dsimp only
    rw [if_neg (by simp [hs]), hres]
  · intro f
    cases f with
    | transportError => simp [get_hp_latency]
    | ok body =>
      by_cases hs : body.status = "success"
      · rcases hres : body.result with _ | ⟨_ | v, rest⟩ <;>
          simp [get_hp_latency, hs, hres]
      · simp [get_hp_latency, hs]

/-- Witness for C5's amended theorem: a non-success status at a concrete
body, and a successful conversion of 0.7 s to 700 ms. -/
theorem get_hp_latency_spec_witness :
    get_hp_latency (.ok ⟨"error", []⟩) = ⟨none, 0, 0⟩ ∧
    get_hp_latency (.ok ⟨"success", [some (7/10)]⟩) =
      ⟨some ((7/10) * 1000), 0, 0⟩ :=
  ⟨get_hp_latency_spec.2.1 ⟨"error", []⟩ (by decide),
   get_hp_latency_spec.2.2.2.2.1 ⟨"success", [some (7/10)]⟩ (7/10) []
     rfl rfl⟩

/-- C10: a successful agent-loop iteration resets `error_count` to 0 and
`last_error` to `none`; consequently the `error_count` reported by
`/status` and `/metrics` after any run equals the number of consecutive
failed iterations since the last successful one (and only when no
iteration ever succeeded is it the initial count plus all failures), not a
cumulative error total. -/
theorem agent_error_count_spec (s : AgentState) (os : List IterOutcome) :
    (∀ (t : ℚ) (s2 : AgentState),
      controller_loop_iteration s2 (.success t) = ⟨0, none, some t⟩) ∧
    status_error_count (controller_loop_run s os) =
      if os.any isSuccess then trailing_failures os
      else s.error_count + os.length := by
  constructor
  · intro t s2
    rfl
  · induction os using List.reverseRecOn with
    | nil => simp [controller_loop_run, trailing_failures, status_error_count]
    | append_singleton os o ih =>
      have hsplit : controller_loop_run s (os ++ [o]) =
          controller_loop_iteration (controller_loop_run s os) o := by
        simp [controller_loop_run]
      rw [hsplit]
      cases o with
      | success t =>
        have h2 : trailing_failures (os ++ [IterOutcome.success t]) = 0 := by
          simp [trailing_failures, isSuccess]
        have h4 : status_error_count (controller_loop_iteration
            (controller_loop_run s os) (.success t)) = 0 := rfl
        rw [h4, h2]
        simp [isSuccess]
      | failure m =>
        have h1 : (os ++ [IterOutcome.failure m]).any isSuccess =
            os.any isSuccess := by simp [isSuccess]
        have h2 : trailing_failures (os ++ [IterOutcome.failure m]) =
            trailing_failures os + 1 := by
          simp [trailing_failures, isSuccess]
        have h3 : (os ++ [IterOutcome.failure m]).length = os.length + 1 := by
          simp
        have h4 : status_error_count (controller_loop_iteration
            (controller_loop_run s os) (.failure m)) =
            status_error_count (controller_loop_run s os) + 1 := rfl
        rw [h4, h1, h2, h3, ih]
        by_cases hany : os.any isSuccess = true
        · rw [if_pos hany, if_pos hany]
        · rw [if_neg hany, if_neg hany]
          omega

/-- C9 (code bug): the stat loop of `discover_block_device` never resolves a
device-node path, because `os.path.S_ISBLK` does not exist and the raised
`AttributeError` is swallowed; at the failing input — a mount-table entry
for `/mnt/features` whose device field `/dev/nvme0n1` names an existing
block device with `rdev` major 259, minor 0, and no matching
`/proc/partitions` line — the function returns `none` although the claim
(and the code's own log message) promises `"259:0"`; the already-`M:m`
fast path does work. -/
theorem discover_block_device_bug :
    (∀ (env : SysEnv) (p : String), try_stat_device env p = none) ∧
    discover_block_device
        ⟨fun p => p == "/dev/nvme0n1", fun p => p == "/dev/nvme0n1",
          fun _ => (259, 0), []⟩
        [["36", "35", "/dev/nvme0n1", "/", "/mnt/features", "rw",
          "shared:1", "-", "ext4", "/dev/nvme0n1"]] "/mnt/features" =
      none ∧
    try_stat_device_spec
        ⟨fun p => p == "/dev/nvme0n1", fun p => p == "/dev/nvme0n1",
          fun _ => (259, 0), []⟩ "/dev/nvme0n1" = some "259:0" ∧
    discover_block_device
        ⟨fun p => p == "/dev/nvme0n1", fun p => p == "/dev/nvme0n1",
          fun _ => (259, 0), []⟩
        [["36", "35", "259:0", "/", "/mnt/features", "rw",
          "shared:1", "-", "ext4", "/dev/nvme0n1"]] "/mnt/features" =
      some "259:0" := by
  refine ⟨?_, ?_, ?_, ?_⟩
  · intro env p
    unfold try_stat_device
    split_ifs <;> rfl
  · rfl
  · rfl
  · rfl

/-- Unfolding equation of `splitNl` at a cons cell. -/
theorem splitNl_cons (c : Char) (cs : Bytes) :
    splitNl (c :: cs) =
      if c = '\n' then [] :: splitNl cs
      else
        match splitNl cs with
        | [] => [[c]]
        | l :: ls => (c :: l) :: ls := rfl

theorem splitNl_ne_nil (s : Bytes) : splitNl s ≠ [] := by
  induction s with
  | nil => simp [splitNl]
  | cons c cs ih =>
    rw [splitNl_cons]
    by_cases h : c = '\n'
    · simp [h]
    · rw [if_neg h]
      cases hs : splitNl cs with
      | nil => simp
      | cons l ls => simp

theorem splitNl_append_newline (l rest : Bytes) (hl : '\n' ∉ l) :
    splitNl (l ++ '\n' :: rest) = l :: splitNl rest := by
  induction l with
  | nil =>
    rw [List.nil_append, splitNl_cons, if_pos rfl]
  | cons c cs ih =>
    have hc : ¬ c = '\n' := fun h => hl (by simp [h])
    have hcs : '\n' ∉ cs := fun h => hl (List.mem_cons_of_mem _ h)
    rw [List.cons_append, splitNl_cons, if_neg hc, ih hcs]

theorem mem_splitNl_no_newline (s : Bytes) :
    ∀ l ∈ splitNl s, '\n' ∉ l := by
  induction s with
  | nil =>
    intro l h
    rw [show splitNl [] = [[]] from rfl] at h
    simp at h
    simp [h]
  | cons c cs ih =>
    intro l h
    rw [splitNl_cons] at h
    by_cases hc : c = '\n'
    · rw [if_pos hc] at h
      rcases List.mem_cons.mp h with h1 | h1
      · simp [h1]
      · exact ih l h1
    · rw [if_neg hc] at h
      cases hs : splitNl cs with
      | nil => exact absurd hs (splitNl_ne_nil cs)
      | cons l0 ls =>
        rw [hs] at h
        dsimp only at h
        rcases List.mem_cons.mp h with h1 | h1
        · subst h1
          intro hmem
          rcases List.mem_cons.mp hmem with h2 | h2
          · exact hc h2.symm
          · exact ih l0 (by rw [hs]; exact List.mem_cons_self l0 ls) h2
        · exact ih l (by rw [hs]; exact List.mem_cons_of_mem l0 h1)

theorem dropWhile_head_false {p : Char → Bool} {l : Bytes} {c : Char}
    {cs : Bytes} (h : l.dropWhile p = c :: cs) : p c = false := by
  induction l with
  | nil => simp [List.dropWhile] at h
  | cons a as ih =>
    rw [List.dropWhile_cons] at h
    by_cases hp : p a = true
    · rw [if_pos hp] at h
      exact ih h
    · rw [if_neg hp] at h
      injection h with h1 h2
      subst h1
      simpa using hp

theorem dropEndWs_append_ws (s : Bytes) (c : Char) (hc : isWs c = true) :
    dropEndWs (s ++ [c]) = dropEndWs s := by
  unfold dropEndWs
  rw [List.reverse_append]
  simp [hc, List.dropWhile_cons]

theorem dropEndWs_append (a b : Bytes) (hb : ∃ c ∈ b, isWs c = false) :
    dropEndWs (a ++ b) = a ++ dropEndWs b := by
  unfold dropEndWs
  rw [List.reverse_append, List.dropWhile_append]
  have hne : ¬ (List.dropWhile isWs b.reverse).isEmpty = true := by
    rw [List.isEmpty_iff, List.dropWhile_eq_nil_iff]
    intro hall
    obtain ⟨c, hcb, hcw⟩ := hb
    have h2 := hall c (by simpa using hcb)
    rw [h2] at hcw
    simp at hcw
  rw [if_neg hne, List.reverse_append, List.reverse_reverse]

theorem dropWhile_isSuffix (p : Char → Bool) (l : Bytes) :
    l.dropWhile p <:+ l :=
  ⟨l.takeWhile p, List.takeWhile_append_dropWhile p l⟩

theorem dropEndWs_isPrefix (s : Bytes) : dropEndWs s <+: s := by
  have h := List.reverse_prefix.mpr (dropWhile_isSuffix isWs s.reverse)
  rw [List.reverse_reverse] at h
  unfold dropEndWs
  exact h

theorem mem_stripB (s : Bytes) (c : Char) (h : c ∈ stripB s) : c ∈ s := by
  unfold stripB at h
  exact (dropWhile_isSuffix isWs s).subset ((dropEndWs_isPrefix _).subset h)

theorem dropWhile_stripB (s : Bytes) :
    (stripB s).dropWhile isWs = stripB s := by
  cases hs : stripB s with
  | nil => simp
  | cons c cs =>
    have hpre : stripB s <+: s.dropWhile isWs := dropEndWs_isPrefix _
    rw [hs] at hpre
    obtain ⟨t, ht⟩ := hpre
    have heq : s.dropWhile isWs = c :: (cs ++ t) := by rw [← ht]; simp
    have hc : isWs c = false := dropWhile_head_false heq
    rw [List.dropWhile_cons, if_neg (by simp [hc])]

theorem dropEndWs_dropEndWs (s : Bytes) :
    dropEndWs (dropEndWs s) = dropEndWs s := by
  unfold dropEndWs
  rw [List.reverse_reverse, List.dropWhile_idempotent]

theorem stripB_stripB (s : Bytes) : stripB (stripB s) = stripB s := by
  have h1 : stripB (stripB s) = dropEndWs ((stripB s).dropWhile isWs) := rfl
  rw [h1, dropWhile_stripB]
  show dropEndWs (dropEndWs (s.dropWhile isWs)) = stripB s
  rw [dropEndWs_dropEndWs]
  unfold stripB
  rfl

theorem stripB_ne_nil (s : Bytes) (h : ∃ c ∈ s, isWs c = false) :
    stripB s ≠ [] := by
  intro hnil
  obtain ⟨c, hcs, hcw⟩ := h
  unfold stripB dropEndWs at hnil
  rw [List.reverse_eq_nil_iff, List.dropWhile_eq_nil_iff] at hnil
  have hsplit : c ∈ s.takeWhile isWs ++ s.dropWhile isWs := by
    rw [List.takeWhile_append_dropWhile]
    exact hcs
  rcases List.mem_append.mp hsplit with h1 | h1
  · rw [List.mem_takeWhile_imp h1] at hcw
    cases hcw
  · rw [hnil c (by simpa using h1)] at hcw
    cases hcw

theorem mem_read_lines (c0 : Bytes) (l : Bytes) (h : l ∈ read_lines c0) :
    stripB l = l ∧ l ≠ [] ∧ '\n' ∉ l := by
  unfold read_lines at h
  rw [List.mem_filter] at h
  obtain ⟨hmap, hne⟩ := h
  rw [List.mem_map] at hmap
  obtain ⟨x, hx, rfl⟩ := hmap
  refine ⟨stripB_stripB x, ?_, ?_⟩
  · intro hnil
    rw [hnil] at hne
    simp at hne
  · intro hmem
    exact mem_splitNl_no_newline c0 x hx (mem_stripB x _ hmem)

theorem joinNl_cons_cons (l l2 : Bytes) (ls : List Bytes) :
    joinNl (l :: l2 :: ls) = l ++ '\n' :: joinNl (l2 :: ls) := rfl

theorem splitNl_joinNl :
    ∀ ls : List Bytes, ls ≠ [] → (∀ l ∈ ls, '\n' ∉ l) →
      splitNl (joinNl ls ++ ['\n']) = ls ++ [[]] := by
  intro ls
  induction ls with
  | nil =>
    intro h _
    exact absurd rfl h
  | cons l ls ih =>
    intro _ hnl
    cases ls with
    | nil =>
      rw [show joinNl [l] = l from rfl,
        splitNl_append_newline l [] (hnl l (by simp))]
      rfl
    | cons l2 ls2 =>
      rw [joinNl_cons_cons, List.append_assoc, List.cons_append,
        splitNl_append_newline l _ (hnl l (by simp)),
        ih (by simp) fun x hx => hnl x (List.mem_cons_of_mem _ hx)]
      rfl

theorem read_lines_joinNl (ls : List Bytes) (hne : ls ≠ [])
    (hfix : ∀ l ∈ ls, stripB l = l) (hnonempty : ∀ l ∈ ls, l ≠ [])
    (hnl : ∀ l ∈ ls, '\n' ∉ l) :
    read_lines (joinNl ls ++ ['\n']) = ls := by
  unfold read_lines
  rw [splitNl_joinNl ls hne hnl, List.map_append, List.filter_append]
  have hmap : ls.map stripB = ls := by
    have h := List.map_congr_left (f := stripB) (g := id)
      fun a ha => hfix a ha
    rw [List.map_id] at h
    exact h
  rw [hmap]
  have h1 : ls.filter (fun l => ! l.isEmpty) = ls :=
    List.filter_eq_self.mpr fun a ha => by
      cases a with
      | nil => exact absurd rfl (hnonempty [] ha)
      | cons c cs => rfl
  rw [h1]
  show ls ++ ([] : List Bytes) = ls
  exact List.append_nil ls

theorem stripB_io_limit_line (device rbps wbps : Bytes)
    (hdne : device ≠ []) (hdws : ∀ c ∈ device, isWs c = false) :
    stripB (io_limit_line device rbps wbps) =
      device ++ " rbps=".toList ++
        dropEndWs (rbps ++ " wbps=".toList ++ wbps) := by
  obtain ⟨c, d, rfl⟩ : ∃ c d, device = c :: d := by
    cases device with
    | nil => exact absurd rfl hdne
    | cons c d => exact ⟨c, d, rfl⟩
  have hc : isWs c = false := hdws c (List.mem_cons_self c d)
  have hw : ∃ x ∈ rbps ++ " wbps=".toList ++ wbps, isWs x = false := by
    refine ⟨'w', ?_, by decide⟩
    rw [List.append_assoc, List.mem_append]
    right
    rw [List.mem_append]
    left
    decide
  have harr : io_limit_line (c :: d) rbps wbps =
      c :: (d ++ " rbps=".toList ++ (rbps ++ " wbps=".toList ++ wbps) ++
        ['\n']) := by
    unfold io_limit_line
    simp [List.append_assoc]
  rw [show stripB (io_limit_line (c :: d) rbps wbps) =
    dropEndWs (List.dropWhile isWs (io_limit_line (c :: d) rbps wbps))
    from rfl]
  rw [harr, List.dropWhile_cons, if_neg (by simp [hc])]
  have harr2 : c :: (d ++ " rbps=".toList ++
      (rbps ++ " wbps=".toList ++ wbps) ++ ['\n']) =
      (((c :: d) ++ " rbps=".toList) ++
        (rbps ++ " wbps=".toList ++ wbps)) ++ ['\n'] := by
    simp [List.append_assoc]
  rw [harr2, dropEndWs_append_ws _ '\n' (by decide),
    dropEndWs_append _ _ hw]

theorem io_limit_line_props (device rbps wbps : Bytes) (hdne : device ≠ [])
    (hdws : ∀ c ∈ device, isWs c = false) (hr : '\n' ∉ rbps)
    (hw : '\n' ∉ wbps) :
    startsWithB (device ++ [' '])
        (stripB (io_limit_line device rbps wbps)) = true ∧
    stripB (io_limit_line device rbps wbps) ≠ [] ∧
    '\n' ∉ stripB (io_limit_line device rbps wbps) := by
  rw [stripB_io_limit_line device rbps wbps hdne hdws]
  refine ⟨?_, ?_, ?_⟩
  · unfold startsWithB
    rw [List.isPrefixOf_iff_prefix]
    have harr : device ++ " rbps=".toList ++
        dropEndWs (rbps ++ " wbps=".toList ++ wbps) =
        (device ++ [' ']) ++ ("rbps=".toList ++
          dropEndWs (rbps ++ " wbps=".toList ++ wbps)) := by
      rw [show " rbps=".toList = ' ' :: "rbps=".toList from rfl]
      simp [List.append_assoc]
    rw [harr]
    exact List.prefix_append _ _
  · cases device with
    | nil => exact absurd rfl hdne
    | cons c d => simp
  · intro hmem
    rcases List.mem_append.mp hmem with h1 | h1
    · rcases List.mem_append.mp h1 with h2 | h2
      · exact absurd (hdws '\n' h2) (by decide)
      · exact absurd h2 (by decide)
    · have h3 := (dropEndWs_isPrefix _).subset h1
      rcases List.mem_append.mp h3 with h4 | h4
      · rcases List.mem_append.mp h4 with h5 | h5
        · exact hr h5
        · exact absurd h5 (by decide)
      · exact hw h4

/-- `read_lines` of the rewritten `io.max` contents: the kept lines followed
by the stripped new limit line. -/
theorem read_lines_apply_io_limit (old : Option Bytes)
    (device rbps wbps : Bytes) (hdne : device ≠ [])
    (hdws : ∀ c ∈ device, isWs c = false) (hr : '\n' ∉ rbps)
    (hw : '\n' ∉ wbps) :
    read_lines (apply_io_limit_contents old device rbps wbps) =
      ((match old with
        | none => ([] : List Bytes)
        | some c => read_lines c).filter
          fun line => ! startsWithB (device ++ [' ']) line) ++
        [stripB (io_limit_line device rbps wbps)] := by
  obtain ⟨hpre, hne0, hnl0⟩ := io_limit_line_props device rbps wbps hdne
    hdws hr hw
  unfold apply_io_limit_contents
  dsimp only
  apply read_lines_joinNl
  · simp
  · intro l hl
    rcases List.mem_append.mp hl with h1 | h1
    · have h2 := List.mem_of_mem_filter h1
      cases old with
      | none => exact absurd h2 (List.not_mem_nil l)
      | some c => exact (mem_read_lines c l h2).1
    · rw [List.mem_singleton.mp h1]
      exact stripB_stripB _
  · intro l hl
    rcases List.mem_append.mp hl with h1 | h1
    · have h2 := List.mem_of_mem_filter h1
      cases old with
      | none => exact absurd h2 (List.not_mem_nil l)
      | some c => exact (mem_read_lines c l h2).2.1
    · rw [List.mem_singleton.mp h1]
      exact hne0
  · intro l hl
    rcases List.mem_append.mp hl with h1 | h1
    · have h2 := List.mem_of_mem_filter h1
      cases old with
      | none => exact absurd h2 (List.not_mem_nil l)
      | some c => exact (mem_read_lines c l h2).2.2
    · rw [List.mem_singleton.mp h1]
      exact hnl0

/-- C8: the bandwidth-cap writer is idempotent on the
`(device, rbps, wbps)` triple — rewriting the contents the first call
produced yields byte-identical contents — and every prior line whose
device prefix differs from `device` is preserved in the rewritten file
(stated for a device token that is nonempty and whitespace-free and limit
values free of newlines, as `major:minor` identifiers and `io.max` values
are). -/
theorem apply_io_limit_spec (old : Option Bytes) (device rbps wbps : Bytes)
    (hdne : device ≠ []) (hdws : ∀ c ∈ device, isWs c = false)
    (hr : '\n' ∉ rbps) (hw : '\n' ∉ wbps) :
    apply_io_limit_contents
        (some (apply_io_limit_contents old device rbps wbps))
        device rbps wbps =
      apply_io_limit_contents old device rbps wbps ∧
    ∀ line ∈ (match old with
        | none => ([] : List Bytes)
        | some c => read_lines c),
      startsWithB (device ++ [' ']) line = false →
      line ∈ read_lines (apply_io_limit_contents old device rbps wbps) := by
  obtain ⟨hpre, hne0, hnl0⟩ := io_limit_line_props device rbps wbps hdne
    hdws hr hw
  constructor
  · have hchar := read_lines_apply_io_limit old device rbps wbps hdne hdws
      hr hw
    have hL : apply_io_limit_contents
        (some (apply_io_limit_contents old device rbps wbps))
        device rbps wbps =
        joinNl (((read_lines (apply_io_limit_contents old device rbps
            wbps)).filter
          fun line => ! startsWithB (device ++ [' ']) line) ++
          [stripB (io_limit_line device rbps wbps)]) ++ ['\n'] := rfl
    rw [hL, hchar, List.filter_append]
    have h1 : ((match old with
        | none => ([] : List Bytes)
        | some c => read_lines c).filter
          (fun line => ! startsWithB (device ++ [' ']) line)).filter
          (fun line => ! startsWithB (device ++ [' ']) line) =
        (match old with
        | none => ([] : List Bytes)
        | some c => read_lines c).filter
          fun line => ! startsWithB (device ++ [' ']) line := by
      rw [List.filter_filter]
      exact List.filter_congr fun a _ => by rw [Bool.and_self]
    have h2 : ([stripB (io_limit_line device rbps wbps)].filter
        fun line => ! startsWithB (device ++ [' ']) line) = [] := by
      simp [hpre]
    rw [h1, h2, List.append_nil]
    rfl
  · intro line hmem hdiff
    rw [read_lines_apply_io_limit old device rbps wbps hdne hdws hr hw,
      List.mem_append]
    left
    rw [List.mem_filter]
    exact ⟨hmem, by simp [hdiff]⟩

/-- Witness for C8 at concrete contents: an unrelated `8:0` line survives
two identical rewrites for device `253:16`, and the second rewrite is
byte-identical to the first. -/
theorem apply_io_limit_spec_witness :
    (apply_io_limit_contents
        (some (apply_io_limit_contents
          (some ("8:0 rbps=max wbps=max\n".toList)) "253:16".toList
          "200M".toList "50M".toList))
        "253:16".toList "200M".toList "50M".toList =
      apply_io_limit_contents (some ("8:0 rbps=max wbps=max\n".toList))
        "253:16".toList "200M".toList "50M".toList) ∧
    "8:0 rbps=max wbps=max".toList ∈
      read_lines (apply_io_limit_contents
        (some ("8:0 rbps=max wbps=max\n".toList)) "253:16".toList
        "200M".toList "50M".toList) :=
  ⟨(apply_io_limit_spec (some ("8:0 rbps=max wbps=max\n".toList))
      "253:16".toList "200M".toList "50M".toList
      (by decide) (by decide) (by decide) (by decide)).1,
   (apply_io_limit_spec (some ("8:0 rbps=max wbps=max\n".toList))
      "253:16".toList "200M".toList "50M".toList
      (by decide) (by decide) (by decide) (by decide)).2
     "8:0 rbps=max wbps=max".toList (by decide) (by decide)⟩

/-- Witness for C2's amended theorem: after an all-writes-failed adjustment
to `(900, 100)`, a second tick with the same latency `700` changes
nothing. -/
theorem apply_new_weights_advances_unconditionally_witness :
    ((apply_new_weights ⟨500, 500, 0, none⟩
        ⟨[⟨some ⟨"/pod", true, []⟩, fun _ => .permError⟩], [],
          some 700, 100⟩ 900 100).1.adjustment_count = 0 + 1) ∧
    control_loop_iteration ⟨100, 1000, 500, 10⟩
        (apply_new_weights ⟨500, 500, 0, none⟩
          ⟨[⟨some ⟨"/pod", true, []⟩, fun _ => .permError⟩], [],
            some 700, 100⟩ 900 100).1
        ⟨[⟨some ⟨"/pod", true, []⟩, fun _ => .permError⟩], [],
          some 700, 105⟩ =
      ((apply_new_weights ⟨500, 500, 0, none⟩
        ⟨[⟨some ⟨"/pod", true, []⟩, fun _ => .permError⟩], [],
          some 700, 100⟩ 900 100).1, []) := by
  constructor
  · exact (apply_new_weights_advances_unconditionally ⟨100, 1000, 500, 10⟩
      ⟨500, 500, 0, none⟩
      ⟨[⟨some ⟨"/pod", true, []⟩, fun _ => .permError⟩], [],
        some 700, 100⟩ 900 100).1.2.2.1
  · exact (apply_new_weights_advances_unconditionally ⟨100, 1000, 500, 10⟩
      ⟨500, 500, 0, none⟩
      ⟨[⟨some ⟨"/pod", true, []⟩, fun _ => .permError⟩], [],
        some 700, 100⟩ 900 100).2
      ⟨[⟨some ⟨"/pod", true, []⟩, fun _ => .permError⟩], [],
        some 700, 105⟩ 700 rfl
      (by norm_num [calculate_weights, clamp_weight])

end DRCIO
